import Mathlib

/-!
Shallow embedding of the path algebra (`bide/utilities.py`, class `Path`) and
the virtual-file layer (`bide/files.py`, class `File`) of the `bide`
repository, together with proofs settling the frozen claims about them.

Paths are modelled as `List Char` (wrapped into `String` at the interface);
the real filesystem is modelled as a finite association list from full-path
strings to entries.  All functions are direct translations of the Python
source; comments reference the source behaviour they mirror.
-/

namespace Bide

/-- The two separator characters the library recognises
(`_SEPARATORS` in `utilities.py`: the POSIX slash and the DOS backslash). -/
def isSep (c : Char) : Bool := c = '/' || c = '\\'

/-- Canonical separator of a `Path` instance: `/` when `posix`, else `\`. -/
def sepChar (posix : Bool) : Char := if posix then '/' else '\\'

/-- Python `Path.strip` with side `left`: remove separator characters of both styles
from the left end. -/
def stripLeftL (l : List Char) : List Char := l.dropWhile isSep

/-- Python `Path.strip` with side `right`: remove separator characters of both styles
from the right end. -/
def stripRightL (l : List Char) : List Char := (l.reverse.dropWhile isSep).reverse

/-- Python `Path.strip()` (side `both`): Python `str.strip` over both separator
characters. -/
def stripBothL (l : List Char) : List Char := stripRightL (stripLeftL l)

/-- Worker for `uniformL`; the boolean records whether the previous character
was a separator (so that a run contributes one canonical separator). -/
def uniformGo (sep : Char) : Bool → List Char → List Char
  | _, [] => []
  | prevSep, c :: rest =>
    if isSep c then
      if prevSep then uniformGo sep true rest
      else sep :: uniformGo sep true rest
    else c :: uniformGo sep false rest

/-- The `collapse=False` branch of `Path.normalise`: the `re.sub` replacing
every run of separator characters (either style) by the instance's canonical
separator. -/
def uniformL (sep : Char) (l : List Char) : List Char := uniformGo sep false l

/-- Python `str.split(sep)` (full split, as used by `rsplit(sep, -1)`). -/
def splitCharL (sep : Char) : List Char → List (List Char)
  | [] => [[]]
  | c :: t =>
    if c = sep then [] :: splitCharL sep t
    else
      match splitCharL sep t with
      | [] => [[c]]
      | a :: as => (c :: a) :: as

/-- Python `str.rsplit(sep, 1)`: `(none, l)` when `sep` does not occur in `l`,
otherwise `(some before, after)` split at the last occurrence of `sep`. -/
def rsplitOnceL (sep : Char) (l : List Char) : Option (List Char) × List Char :=
  let r := l.reverse
  let t := r.takeWhile (fun c => c ≠ sep)
  if t.length = r.length then (none, l)
  else (some ((r.drop (t.length + 1)).reverse), t.reverse)

/-- Does the fragment start with a separator character of either style
(Python `path.startswith(_SEPARATORS)`)? -/
def headIsSep (l : List Char) : Bool :=
  match l with
  | [] => false
  | c :: _ => isSep c

/-- Does the fragment end with a separator character of either style
(Python `path.endswith(_SEPARATORS)`)? -/
def lastIsSep (l : List Char) : Bool := headIsSep l.reverse

/-- The accumulation loop of `Path.join`: the first fragment is taken as-is,
each later fragment is appended, inserting the canonical separator unless the
accumulated path already ends in a separator. -/
def joinFoldL (sep : Char) : List (List Char) → List Char
  | [] => []
  | h :: t => t.foldl (fun acc p => if lastIsSep acc then acc ++ p else acc ++ sep :: p) h

/-- Python `Path.join` over already-collected fragments (`all_paths` with `self.path`
prepended when nonempty): empty fragments are dropped, every fragment after
the first that starts with a separator is left-stripped, then the fragments
are folded with `joinFoldL`. -/
def pyJoinL (sep : Char) (frags : List (List Char)) : List Char :=
  let strung := frags.filter (fun p => !p.isEmpty)
  let stripped :=
    match strung with
    | [] => []
    | h :: t => h :: t.map (fun p => if headIsSep p then stripLeftL p else p)
  joinFoldL sep stripped

/-- Python `Path.split(maximum=None)`: strip both sides, uniform the separators,
split on every canonical separator. -/
def splitAllL (sep : Char) (l : List Char) : List (List Char) :=
  splitCharL sep (uniformL sep (stripBothL l))

/-- Python `Path.split(maximum=1)`: strip the right side, uniform the separators,
split at the last canonical separator; when no separator is found an empty
first component is prepended so a pair is always returned. -/
def splitOneL (sep : Char) (l : List Char) : List Char × List Char :=
  let n := uniformL sep (stripRightL l)
  match rsplitOnceL sep n with
  | (none, x) => ([], x)
  | (some a, b) => (a, b)

/-- The segment-filtering loop of `Path.normalise` (collapse branch): `.` and
`..` segments are never kept; when `resolve` is set, a `..` additionally pops
the most recently kept segment (`pop` swallows `IndexError`, so a `..` with
nothing to pop is simply dropped). -/
def collapseSegs (resolve : Bool) (segs : List (List Char)) : List (List Char) :=
  segs.foldl
    (fun acc seg =>
      if seg = ['.'] ∨ seg = ['.', '.'] then
        if resolve ∧ seg = ['.', '.'] then acc.dropLast else acc
      else acc ++ [seg])
    []

/-- Fragments interleaved with single canonical separators — the canonical
shape the collapse branch of `normalise` produces; used to specify it. -/
def interL (sep : Char) : List (List Char) → List Char
  | [] => []
  | h :: t => h ++ (t.map (fun a => sep :: a)).flatten

/-- Python `Path._plant`: prefix the canonical separator via `Path(sep).join(path)`
unless the path already starts with it. -/
def plantL (sep : Char) (l : List Char) : List Char :=
  if l.headD ' ' = sep then l else pyJoinL sep [[sep], l]

/-- Python `Path.normalise(collapse, resolve, absolute)` at the character-list level,
for an instance with canonical separator `sep`.  The `firstSegment' /
lastSegment'` conditionals translate the source's attempted preservation of a
leading/trailing separator; they test segments produced by
`split(maximum=None)`, which has already stripped all boundary separators. -/
def normaliseL (sep : Char) (collapse resolve absolute : Bool) (l : List Char) : List Char :=
  let normal :=
    if collapse ∧ (l.length > 1 ∨ ¬(l = ['/'] ∨ l = ['\\'])) then
      let segments := splitAllL sep l
      let filtered := collapseSegs resolve segments
      let firstSegment := segments.headD []
      let restSegments := segments.tail
      let firstFiltered := filtered.headD []
      let restFiltered := filtered.tail
      let lastSegment := restSegments.getLastD []
      let lastFiltered := restFiltered.getLastD []
      let middle := restFiltered.dropLast
      let firstFiltered' := if headIsSep firstSegment then sep :: firstFiltered else firstFiltered
      let lastFiltered' := if lastIsSep lastSegment then lastFiltered ++ [sep] else lastFiltered
      pyJoinL sep (firstFiltered' :: (middle ++ [lastFiltered']))
    else uniformL sep l
  if absolute then plantL sep normal else normal

namespace Path

/-- String-level `Path.strip()` with side `both`. -/
def stripStr (s : String) : String := ⟨stripBothL s.data⟩

/-- String-level `Path.normalise` of an instance with the given `posix` flag. -/
def normalise (posix collapse resolve absolute : Bool) (s : String) : String :=
  ⟨normaliseL (sepChar posix) collapse resolve absolute s.data⟩

/-- String-level `Path.join`: `base` plays the role of `self.path` (prepended
when nonempty), `frags` the supplied fragments. -/
def join (posix : Bool) (base : String) (frags : List String) : String :=
  ⟨pyJoinL (sepChar posix) (base.data :: frags.map String.data)⟩

/-- String-level `Path.split(maximum=1)`. -/
def splitOne (posix : Bool) (s : String) : String × String :=
  let p := splitOneL (sepChar posix) s.data
  (⟨p.1⟩, ⟨p.2⟩)

/-- String-level `Path.split(maximum=None)`. -/
def splitAll (posix : Bool) (s : String) : List String :=
  (splitAllL (sepChar posix) s.data).map (fun l => ⟨l⟩)

end Path

/-- The `File` attributes frozen by `File.__init__` (`files.py`); only the
string-valued state is modelled — `match=False` and an explicitly supplied
`root`, on a POSIX host (so the root `Path` instance uses the `/` separator). -/
structure FileModel where
  root : String
  path : String
  name : String
  parent_path : String
  full_path : String
  full_parent_path : String
deriving Repr, DecidableEq

/-- Python `File.__init__(path, root)` with an explicit string `root` and
`match=False`: the supplied path is stripped and normalised to an absolute
POSIX logical path, split into parent and name, and the full paths are the
root joined with the logical paths, normalised with default arguments. -/
def File.make (root p : String) : FileModel :=
  let pathInstance := Path.normalise true true true true (Path.stripStr p)
  let pair := Path.splitOne true pathInstance
  let fixedDirectory := if pair.1 = "" then "/" else pair.1
  { root := root
    path := pathInstance
    name := pair.2
    parent_path := fixedDirectory
    full_path := Path.normalise true true true false (Path.join true root [pathInstance])
    full_parent_path := Path.normalise true true true false (Path.join true root [fixedDirectory]) }

/-- Does `s` begin with `pre` (character-level string prefix)? -/
def strStartsWith (s pre : String) : Bool := pre.data.isPrefixOf s.data

/-- A filesystem entry: a regular file with byte content and a modification
time (the metadata `filecmp`'s shallow signature looks at), or a directory. -/
inductive Entry
  | file (content : List Nat) (mtime : Nat)
  | dir
deriving Repr, DecidableEq

/-- The real filesystem, abstracted as a finite association list from
full-path strings to entries; list order stands in for `os.walk`'s
enumeration order. -/
structure FS where
  entries : List (String × Entry)
deriving Repr, DecidableEq

namespace FS

/-- Look up the entry stored at a full path. -/
def find (fs : FS) (p : String) : Option Entry :=
  (fs.entries.find? (fun e => e.1 = p)).map (fun e => e.2)

/-- Python `os.path.exists(p)`. -/
def existsPath (fs : FS) (p : String) : Bool := (fs.find p).isSome

/-- Python `os.path.isdir(p)`. -/
def isDir (fs : FS) (p : String) : Bool := fs.find p = some .dir

/-- Python `os.path.isfile(p)`. -/
def isFile (fs : FS) (p : String) : Bool :=
  match fs.find p with
  | some (.file _ _) => true
  | _ => false

/-- Byte content of the file at `p` (empty for non-files). -/
def fileContent (fs : FS) (p : String) : List Nat :=
  match fs.find p with
  | some (.file c _) => c
  | _ => []

/-- Modification time of the file at `p` (0 for non-files). -/
def fileMtime (fs : FS) (p : String) : Nat :=
  match fs.find p with
  | some (.file _ m) => m
  | _ => 0

/-- Python `os.path.getsize(p)` for a file. -/
def fileSize (fs : FS) (p : String) : Nat := (fs.fileContent p).length

/-- Is `q` strictly below directory `d` (i.e. `q = d/...`)? -/
def under (d q : String) : Bool := (d ++ "/").data.isPrefixOf q.data

/-- All file paths strictly below directory `d`, in entry (walk) order:
the files `os.walk(d)` reports across every level. -/
def filesUnder (fs : FS) (d : String) : List String :=
  (fs.entries.filter (fun e => under d e.1 && fs.isFile e.1)).map (fun e => e.1)

/-- Immediate child names of directory `d` (entries `d/name` with a
separator-free `name`), in entry order: `os.listdir(d)`. -/
def childNames (fs : FS) (d : String) : List String :=
  (fs.entries.filter
      (fun e =>
        under d e.1 &&
          !(e.1.data.drop (d.data.length + 1)).any (fun c => isSep c))).map
    (fun e => ⟨e.1.data.drop (d.data.length + 1)⟩)

/-- File paths directly inside directory `d` (the files of the first `os.walk`
level). -/
def immediateFiles (fs : FS) (d : String) : List String :=
  ((fs.childNames d).filter (fun n => fs.isFile (d ++ "/" ++ n))).map
    (fun n => d ++ "/" ++ n)

/-- Directory paths strictly below `d`, in entry order (the further levels
`os.walk` visits). -/
def dirsUnder (fs : FS) (d : String) : List String :=
  (fs.entries.filter (fun e => under d e.1 && fs.isDir e.1)).map (fun e => e.1)

end FS

/-- Truthiness of the `limit` argument in Python (`if limit and ...`): `None`
and `0` are falsy. -/
def limitTruthy (limit : Option Nat) : Bool :=
  match limit with
  | some n => n ≠ 0
  | none => false

/-- Text-mode line iteration over a file's bytes (`File.read(lines=True)`):
each line keeps its terminating newline (byte 10); a final unterminated piece
forms the last line; an empty file yields no lines. -/
def pyLinesGo : List Nat → List Nat → List (List Nat)
  | cur, [] => if cur.isEmpty then [] else [cur.reverse]
  | cur, b :: rest =>
    if b = 10 then (cur.reverse ++ [10]) :: pyLinesGo [] rest
    else pyLinesGo (b :: cur) rest

/-- Lines of a byte content, as Python file iteration yields them. -/
def pyLines (content : List Nat) : List (List Nat) := pyLinesGo [] content

/-- Python whitespace bytes stripped by `str.strip()`. -/
def isPyWhitespace (b : Nat) : Bool :=
  b = 32 || b = 9 || b = 10 || b = 13 || b = 11 || b = 12

/-- Python `str.strip()` over bytes. -/
def stripWs (l : List Nat) : List Nat :=
  ((l.dropWhile isPyWhitespace).reverse.dropWhile isPyWhitespace).reverse

/-- Python `utilities.feed(file, strip=strip, skip=skip, split=False)` as
`File._count_lines` invokes it (`headless`/`tailless` keep their falsy
defaults): optionally strip each line, and skip lines that are falsy when
`skip` is set. -/
def feed (file : List (List Nat)) (strip skip : Bool) : List (List Nat) :=
  file.foldr
    (fun line acc =>
      let line := if strip then stripWs line else line
      if !line.isEmpty || !skip then line :: acc else acc)
    []

/-- The counting loop of `File._count_lines`.  The `return length` statement
sits inside the `for` body, so the first iteration either returns 1, or — when
the count equals a truthy `limit` (that is, `limit == 1`) — sets the sentinel,
breaks, and falls off the end of the function, which returns `None`. -/
def countLinesLoop (limit : Option Nat) (items : List (List Nat)) : Option Nat :=
  match items with
  | [] => none
  | _ :: _ => if limitTruthy limit ∧ limit = some 1 then none else some 1

/-- Python `File._count_lines(limit, strip, skip)`: guarded by `self._file`, so any
non-file (directories included) yields `None`. -/
def countLines (fs : FS) (f : FileModel) (limit : Option Nat) (strip skip : Bool) :
    Option Nat :=
  if fs.isFile f.full_path then
    countLinesLoop limit (feed (pyLines (fs.fileContent f.full_path)) strip skip)
  else none

/-- Results `File._size` can produce: implicit `None` when the entry does not
exist, a byte count, or the sentinel `True` once a truthy `limit` is
reached. -/
inductive PySize
  | pyNone
  | bytes (n : Nat)
  | limitTrue
deriving Repr, DecidableEq

/-- The accumulation loop of `File._size` over the walked file paths, with the
early-exit `limit` check after each file. -/
def sizeFold (fs : FS) (limit : Option Nat) : List String → Nat → PySize
  | [], acc => .bytes acc
  | p :: ps, acc =>
    let acc := acc + fs.fileSize p
    if limitTruthy limit ∧ acc ≥ limit.getD 0 then .limitTrue
    else sizeFold fs limit ps acc

/-- Python `File._size(recurse, limit)`: `None` for a missing entry, the walked sum
of contained file sizes for a directory (only the first walk level when
`recurse` is false), the file's own byte size otherwise. -/
def size (fs : FS) (f : FileModel) (recurse : Bool) (limit : Option Nat) : PySize :=
  if fs.existsPath f.full_path then
    if fs.isDir f.full_path then
      sizeFold fs limit
        (if recurse then fs.filesUnder f.full_path else fs.immediateFiles f.full_path) 0
    else .bytes (fs.fileSize f.full_path)
  else .pyNone

/-- Truthiness of a `_count_lines` result (`not self._count_lines(limit=1)`). -/
def countTruthy : Option Nat → Bool
  | none => false
  | some n => n ≠ 0

/-- Python `File._empty`: for an existing directory the source calls
`_count_lines(limit=1)` — a method whose body is guarded by `self._file` and
therefore returns `None` for every directory; for an existing file it tests
`_size() == 0`; for a missing entry it returns `None`. -/
def emptyProp (fs : FS) (f : FileModel) : Option Bool :=
  if fs.isDir f.full_path then
    some (!countTruthy (countLines fs f (some 1) false false))
  else if fs.isFile f.full_path then
    some (decide (size fs f true none = PySize.bytes 0))
  else none

/-- Python `File._compare_likeness`. -/
def compareLikeness (a b : Bool) : Int :=
  if a && !b then 1 else if !a && b then -1 else 0

/-- Numeric value of a size result where the source compares them as ints. -/
def sizeNat : PySize → Nat
  | .bytes n => n
  | _ => 0

/-- Python `File._compare_lengths(other, count=False)` as written — the three-way
comparison the class docstring promises for `<`, `>`, `<=`, `>=`: sameness
gives 0, then existence likeness, then directory likeness (a directory is
greater than a file), then the numeric sizes with default keyword
arguments. -/
def compareLengths (fs : FS) (self other : FileModel) : Int :=
  if self.full_path = other.full_path then 0
  else
    let e := compareLikeness (fs.existsPath self.full_path) (fs.existsPath other.full_path)
    if e ≠ 0 then e
    else if fs.existsPath self.full_path then
      let d := compareLikeness (fs.isDir self.full_path) (fs.isDir other.full_path)
      if d ≠ 0 then d
      else
        let a := sizeNat (size fs self true none)
        let b := sizeNat (size fs other true none)
        if a > b then 1 else if a < b then -1 else 0
    else 0

/-- Python `File.compare` with method `sizes` as the source actually executes it:
`compare` calls `_compare_sizes(other)`, which binds `other` to its
`size_recurse` parameter and then calls
`_compare_lengths(count=False, size_recurse=other)` without the required
positional `other` argument.  Every size comparison — and with it `<`, `>`,
`<=`, `>=` — therefore raises `TypeError` before any comparison logic runs. -/
def compareSizes (_fs : FS) (_self _other : FileModel) : Except String Int :=
  Except.error "TypeError: compare lengths missing 1 required positional argument: other"

/-- Python `filecmp.cmp(p1, p2, shallow)`: equal stat signatures (size, mtime)
short-circuit to `True` under `shallow`; otherwise the byte contents are
compared. -/
def filecmpCmp (fs : FS) (p1 p2 : String) (shallow : Bool) : Bool :=
  if shallow ∧ (fs.fileSize p1, fs.fileMtime p1) = (fs.fileSize p2, fs.fileMtime p2) then true
  else fs.fileContent p1 = fs.fileContent p2

/-- Names present in both directories (`dircmp.common`). -/
def commonNames (fs : FS) (l r : String) : List String :=
  (fs.childNames l).filter (fun n => (fs.childNames r).contains n)

/-- Names only on the left (`dircmp.left_only`). -/
def leftOnly (fs : FS) (l r : String) : List String :=
  (fs.childNames l).filter (fun n => !(fs.childNames r).contains n)

/-- Names only on the right (`dircmp.right_only`). -/
def rightOnly (fs : FS) (l r : String) : List String :=
  (fs.childNames r).filter (fun n => !(fs.childNames l).contains n)

/-- Common names that are files on both sides and differ under the shallow
comparison (`dircmp.diff_files`). -/
def diffFiles (fs : FS) (l r : String) : List String :=
  (commonNames fs l r).filter
    (fun n =>
      fs.isFile (l ++ "/" ++ n) && fs.isFile (r ++ "/" ++ n) &&
        !filecmpCmp fs (l ++ "/" ++ n) (r ++ "/" ++ n) true)

/-- Common names whose kinds disagree (`dircmp.common_funny`). -/
def commonFunny (fs : FS) (l r : String) : List String :=
  (commonNames fs l r).filter
    (fun n => fs.isDir (l ++ "/" ++ n) != fs.isDir (r ++ "/" ++ n))

/-- Common names that are directories on both sides (`dircmp.subdirs`). -/
def commonSubdirs (fs : FS) (l r : String) : List String :=
  (commonNames fs l r).filter
    (fun n => fs.isDir (l ++ "/" ++ n) && fs.isDir (r ++ "/" ++ n))

/-- Python `File._compare_equality_directory` with explicit recursion fuel (the
source recurses through `comparator.subdirs`; claims always supply enough
fuel).  Note the deep branch: `filecmp.cmpfiles(...) is truth` compares a
tuple with a boolean and is therefore always `False`. -/
def compareEqualityDirectory (fs : FS) (shallow recursive inverse : Bool) :
    Nat → String → String → Bool
  | 0, _, _ => !inverse
  | fuel + 1, l, r =>
    let truth := !inverse
    let result :=
      (((diffFiles fs l r).isEmpty && (leftOnly fs l r).isEmpty &&
          (rightOnly fs l r).isEmpty) == truth)
    let result :=
      if result then
        if shallow then (commonFunny fs l r).isEmpty else false
      else result
    if recursive && ((!result && !truth) || (result && truth)) then
      ((commonSubdirs fs l r).foldl
          (fun st n =>
            if st.2 then st
            else
              let rn := compareEqualityDirectory fs shallow recursive inverse fuel
                  (l ++ "/" ++ n) (r ++ "/" ++ n)
              (rn, (rn && !truth) || (!rn && truth)))
          (result, false)).1
    else result

/-- Python `File._compare_equality(other, shallow, recurse, inverse)` — the method
behind `==` and `!=`: the result starts out `True` and is only refined when
both entries exist; then directory trees go through `dircmp`, two files
through `filecmp.cmp(...) is not inverse`, and a file/directory mismatch is
`False`. -/
def compareEquality (fs : FS) (self other : FileModel) (shallow recurse inverse : Bool) :
    Bool :=
  if fs.existsPath self.full_path && fs.existsPath other.full_path then
    if fs.isDir self.full_path && fs.isDir other.full_path then
      compareEqualityDirectory fs shallow recurse inverse (fs.entries.length + 1)
        self.full_path other.full_path
    else if !fs.isDir self.full_path && !fs.isDir other.full_path then
      filecmpCmp fs self.full_path other.full_path shallow != inverse
    else false
  else true

/-- An external digest backend (spec §6): an updatable hasher that
`utilities.checksum` drives through successive `update` calls. -/
structure DigestAlg (σ : Type) where
  init : σ
  update : σ → List Nat → σ

/-- Fixed-size blocks as `File.read(blocks=True, binary=True, length=n)`
yields them. -/
def chunks (n : Nat) (l : List Nat) : List (List Nat) :=
  if l.isEmpty then [] else l.take (n + 1) :: chunks n (l.drop (n + 1))
termination_by l.length
decreasing_by
  cases l with
  | nil => simp_all
  | cons a t => simpa using Nat.lt_succ_of_le (Nat.sub_le _ _)

/-- Python `utilities.checksum` over an iterable of byte chunks with a
`hashlib`-style backend: stream every chunk into one running digest. -/
def checksumStream {σ : Type} (alg : DigestAlg σ) (stream : List (List Nat)) : σ :=
  stream.foldl alg.update alg.init

/-- One record yielded per directory level by `File.children`
(`_descendants`): the level's path and its file entries. -/
structure WalkRecord where
  path : String
  files : List String
deriving Repr, DecidableEq

/-- The walk `File.children(recursive=True, separate=True, files=True,
directories=False, instances=True, hide=False)` performs: one record per
visited directory level, the walk root's own level first. -/
def childrenRecords (fs : FS) (d : String) : List WalkRecord :=
  (d :: fs.dirsUnder d).map (fun lvl => { path := lvl, files := fs.immediateFiles lvl })

/-- Python `File._checksum_children`: iterates the records `children` yields and
evaluates `child._checksum(...)` on each — but `children` yields one
dictionary per directory level, not `File` instances, so the first record
raises `AttributeError`. -/
def checksumChildren (records : List WalkRecord) : Except String (List Nat) :=
  match records with
  | [] => Except.ok []
  | _ :: _ => Except.error "AttributeError: dict object has no attribute checksum"

/-- Python `File._checksum(algorithm)`: a file streams its 65536-byte blocks through
the digest; a directory feeds `_checksum_children` (whose first item fails as
above) into `utilities.checksum`. -/
def fileChecksum {σ : Type} (fs : FS) (alg : DigestAlg σ) (f : FileModel) :
    Except String σ :=
  if fs.isDir f.full_path then
    match checksumChildren (childrenRecords fs f.full_path) with
    | Except.ok _ => Except.ok (checksumStream alg [])
    | Except.error e => Except.error e
  else Except.ok (checksumStream alg (chunks 65535 (fs.fileContent f.full_path)))

/-- Modelled from the spec: the claimed directory checksum — "the chosen
algorithm applied across the concatenation-by-update of every descendant
file's bytes" in file-list enumeration order (spec §4.2, `checksum`). -/
def specDirectoryChecksum {σ : Type} (fs : FS) (alg : DigestAlg σ) (d : String) : σ :=
  checksumStream alg ((fs.filesUnder d).map (fun p => fs.fileContent p))

/-- Python `os.path.splitext` on a separator-free name: split at the last dot unless
every character before it is also a dot (leading dots never start an
extension). -/
def splitext (name : List Char) : List Char × List Char :=
  let r := name.reverse
  let t := r.takeWhile (fun c => c ≠ '.')
  if t.length = r.length then (name, [])
  else
    let base := (r.drop (t.length + 1)).reverse
    if base.all (fun c => c = '.') then (name, [])
    else (base, '.' :: t.reverse)

/-- Python `File._resolution(path, count)`: split the full path into directory and
name, split the name's extension, and join `<base>_<count><ext>` back under
the directory. -/
def resolution (fullPath : String) (count : Nat) : String :=
  let pair := Path.splitOne true fullPath
  let se := splitext pair.2.data
  Path.join true pair.1 [(⟨se.1⟩ : String) ++ "_" ++ toString count ++ (⟨se.2⟩ : String)]

/-- The `while os.path.exists(...)` loop of `File._resolve`, with explicit
fuel standing in for the source's unbounded iteration (`none` = fuel ran
out). -/
def resolveLoop (fs : FS) (fullPath : String) : Nat → Nat → Option Nat
  | 0, _ => none
  | fuel + 1, count =>
    if fs.existsPath (resolution fullPath count) then
      resolveLoop fs fullPath fuel (count + 1)
    else some count

/-- Python `File._resolve`, reduced to the resolved name it hands to
`self.sibling(resolved_name, instance=True)`: the instance's own name when
the entry does not exist, otherwise the name component of the first free
`<base>_<n><ext>` candidate.  The method performs no filesystem mutation —
its only filesystem interaction is the `os.path.exists` probe, which this
model reflects by consuming `fs` read-only. -/
def resolveName (fs : FS) (f : FileModel) (fuel : Nat) : Option String :=
  if fs.existsPath f.full_path then
    (resolveLoop fs f.full_path fuel 1).map
      (fun n => (Path.splitOne true (resolution f.full_path n)).2)
  else some f.name

/-- Concrete filesystem exercising the `_empty` claim: a directory `r/d`
holding one file, plus an empty file, a non-empty file, and nothing at
`r/zz`. -/
def fsC3 : FS :=
  ⟨[("r/d", .dir), ("r/d/a", .file [65] 0), ("r/e", .file [] 0), ("r/f", .file [1, 2] 5)]⟩

/-- Concrete filesystem exercising the `_count_lines` claim: one file whose
content is the two lines `a\n` and `b\n`. -/
def fsC6 : FS := ⟨[("r/t", .file [97, 10, 98, 10] 0)]⟩

/-- Concrete filesystem exercising the directory-checksum claim. -/
def fsC5 : FS := ⟨[("r/d", .dir), ("r/d/a", .file [65, 66] 0)]⟩

/-- Concrete filesystem exercising the conflict-resolution claim:
`avatar.png` and `avatar_1.png` exist, `avatar_2.png` does not. -/
def fsC9 : FS := ⟨[("r/avatar.png", .file [1] 0), ("r/avatar_1.png", .file [2] 0)]⟩

-- Sanity checks against the expectations of the tests shipped with the
-- repository (tests/paths.py and tests/files.py).
example : Path.join true "" ["x"] = "x" := by decide
example : Path.join false "abc" ["x/y"] = "abc\\x/y" := by decide
example : Path.join true "abc\\123" ["/x/", "/y/"] = "abc\\123/x/y/" := by decide
example : Path.join true "/" ["x"] = "/x" := by decide
example : Path.join false "\\" ["x", "/y/"] = "\\x\\y/" := by decide
example : Path.normalise true true true false "abc\\123" = "abc/123" := by decide
example : Path.normalise false true true false "123/abc.md" = "123\\abc.md" := by decide
example : Path.normalise true true true true "123\\..\\abc.md" = "/abc.md" := by decide
example : Path.normalise true false true false "123\\..\\abc.md" = "123/../abc.md" := by decide
example : Path.normalise true true false false "123\\..\\abc.md" = "123/abc.md" := by decide
example : Path.normalise false false true false "/abc\\123/" = "\\abc\\123\\" := by decide
example : Path.normalise true true true false "/" = "/" := by decide
example : Path.normalise true true true true "./../.././../abc" = "/abc" := by decide
example : Path.splitOne true "123\\..\\abc.md" = ("123/..", "abc.md") := by decide
example : Path.splitAll true "123\\..\\abc.md" = ["123", "..", "abc.md"] := by decide
example : Path.splitOne true "/" = ("", "") := by decide
example : Path.splitAll true "" = [""] := by decide
example : Path.splitOne false "C:\\text.md" = ("C:", "text.md") := by decide

-- Behaviour central to C1/C2: the collapse branch of `normalise` first runs
-- `split(maximum=None)`, which strips all boundary separators, so the leading
-- separator of a rooted path is lost.
example : Path.normalise true true true false "/abc/../" = "" := by decide
example : Path.normalise true true true false (Path.join true "/abc" ["../xyz"]) = "xyz" := by
  decide
example : Path.normalise true true true false "/tmp/x/text.md" = "tmp/x/text.md" := by decide
example : (File.make "/tmp/r" "text.md").path = "/text.md" := by decide
example : (File.make "/tmp/r" "text.md").full_path = "tmp/r/text.md" := by decide

-- Basic facts about the filesystem model used by the comparison claims.

theorem FS.isDir_existsPath {fs : FS} {p : String} (h : fs.isDir p = true) :
    fs.existsPath p = true := by
  unfold FS.isDir at h
  unfold FS.existsPath
  cases hf : fs.find p <;> simp [hf] at h ⊢

theorem FS.isFile_existsPath {fs : FS} {p : String} (h : fs.isFile p = true) :
    fs.existsPath p = true := by
  unfold FS.isFile at h
  unfold FS.existsPath
  cases hf : fs.find p <;> simp [hf] at h ⊢

theorem FS.isFile_not_isDir {fs : FS} {p : String} (h : fs.isFile p = true) :
    fs.isDir p = false := by
  unfold FS.isFile at h
  unfold FS.isDir
  cases hf : fs.find p with
  | none => simp [hf] at h
  | some e => cases e <;> simp [hf] at h ⊢

-- Supporting lemmas about the path algebra, used to prove that `normalise`
-- with default arguments is idempotent (claim C8).

theorem headIsSep_of_clean {x : List Char} (h : ∀ c ∈ x, isSep c = false) :
    headIsSep x = false := by
  cases x with
  | nil => rfl
  | cons c t => simpa [headIsSep] using h c (by simp)

theorem lastIsSep_of_clean {x : List Char} (h : ∀ c ∈ x, isSep c = false) :
    lastIsSep x = false := by
  unfold lastIsSep
  apply headIsSep_of_clean
  intro c hc
  exact h c (List.mem_reverse.mp hc)

theorem headIsSep_append {a r : List Char} (ha : a ≠ []) :
    headIsSep (a ++ r) = headIsSep a := by
  cases a with
  | nil => exact absurd rfl ha
  | cons c t => rfl

theorem lastIsSep_append {a r : List Char} (hr : r ≠ []) :
    lastIsSep (a ++ r) = lastIsSep r := by
  unfold lastIsSep
  rw [List.reverse_append]
  exact headIsSep_append (by simpa using hr)

theorem stripLeftL_eq {l : List Char} (h : headIsSep l = false) : stripLeftL l = l := by
  cases l with
  | nil => rfl
  | cons c t =>
    unfold stripLeftL
    rw [List.dropWhile_cons, if_neg]
    simpa [headIsSep] using h

theorem stripRightL_eq {l : List Char} (h : lastIsSep l = false) : stripRightL l = l := by
  unfold stripRightL
  have h2 : l.reverse.dropWhile isSep = l.reverse := by
    have h3 : headIsSep l.reverse = false := h
    cases hrev : l.reverse with
    | nil => rfl
    | cons c t =>
      rw [List.dropWhile_cons, if_neg]
      rw [hrev] at h3
      simpa [headIsSep] using h3
  rw [h2, List.reverse_reverse]

theorem isSep_cases {c : Char} (h : isSep c = true) : c = '/' ∨ c = '\\' := by
  simpa [isSep] using h

theorem uniformGo_cons_clean {sep c : Char} (hcs : isSep c = false) (b : Bool)
    (rest : List Char) : uniformGo sep b (c :: rest) = c :: uniformGo sep false rest := by
  simp [uniformGo, hcs]

theorem uniformGo_clean_append {sep : Char} {a : List Char} (r : List Char) (ha : a ≠ [])
    (hc : ∀ c ∈ a, isSep c = false) (b : Bool) :
    uniformGo sep b (a ++ r) = a ++ uniformGo sep false r := by
  induction a generalizing b with
  | nil => exact absurd rfl ha
  | cons c t ih =>
    have hcs : isSep c = false := hc c (by simp)
    cases t with
    | nil => simp [uniformGo, hcs]
    | cons d u =>
      have h2 := ih (by simp) (fun x hx => hc x (by simp [hx])) false
      show uniformGo sep b (c :: (d :: u ++ r)) = c :: (d :: u ++ uniformGo sep false r)
      rw [uniformGo_cons_clean hcs, h2]

theorem interL_cons_cons {sep : Char} (a b : List Char) (t : List (List Char)) :
    interL sep (a :: b :: t) = a ++ sep :: interL sep (b :: t) := by
  simp [interL]

theorem uniformGo_interL {sep : Char} (hsep : isSep sep = true) {G : List (List Char)}
    (hne : ∀ x ∈ G, x ≠ []) (hclean : ∀ x ∈ G, ∀ c ∈ x, isSep c = false) (b : Bool) :
    uniformGo sep b (interL sep G) = interL sep G := by
  induction G generalizing b with
  | nil => rfl
  | cons a t ih =>
    cases t with
    | nil =>
      have h1 : interL sep [a] = a ++ ([] : List Char) := by simp [interL]
      rw [h1, uniformGo_clean_append _ (hne a (by simp)) (hclean a (by simp)) b]
      rfl
    | cons a2 t2 =>
      rw [interL_cons_cons,
        uniformGo_clean_append _ (hne a (by simp)) (hclean a (by simp)) b]
      congr 1
      have h2 : uniformGo sep false (sep :: interL sep (a2 :: t2))
          = sep :: uniformGo sep true (interL sep (a2 :: t2)) := by
        simp [uniformGo, hsep]
      rw [h2, ih (fun x hx => hne x (by simp [hx])) (fun x hx => hclean x (by simp [hx])) true]

theorem mem_uniformGo {sep : Char} {c : Char} {l : List Char} :
    ∀ {b : Bool}, c ∈ uniformGo sep b l → isSep c = true → c = sep := by
  induction l with
  | nil => intro b h _; simp [uniformGo] at h
  | cons d t ih =>
    intro b h hc
    by_cases hd : isSep d = true
    · cases b with
      | true =>
        rw [show uniformGo sep true (d :: t) = uniformGo sep true t from by
          simp [uniformGo, hd]] at h
        exact ih h hc
      | false =>
        rw [show uniformGo sep false (d :: t) = sep :: uniformGo sep true t from by
          simp [uniformGo, hd]] at h
        rcases List.mem_cons.mp h with h | h
        · exact h
        · exact ih h hc
    · rw [show uniformGo sep b (d :: t) = d :: uniformGo sep false t from by
        simp [uniformGo, hd]] at h
      rcases List.mem_cons.mp h with h | h
      · subst h; exact absurd hc hd
      · exact ih h hc

theorem splitCharL_ne_nil (sep : Char) (l : List Char) : splitCharL sep l ≠ [] := by
  induction l with
  | nil => simp [splitCharL]
  | cons c t ih =>
    unfold splitCharL
    by_cases hc : c = sep
    · simp [hc]
    · rw [if_neg hc]
      cases h : splitCharL sep t with
      | nil => simp
      | cons a as => simp

theorem not_mem_splitCharL (sep : Char) (l : List Char) :
    ∀ x ∈ splitCharL sep l, sep ∉ x := by
  induction l with
  | nil =>
    intro x hx
    simp [splitCharL] at hx
    simp [hx]
  | cons c t ih =>
    intro x hx
    unfold splitCharL at hx
    by_cases hc : c = sep
    · rw [if_pos hc] at hx
      rcases List.mem_cons.mp hx with h | h
      · simp [h]
      · exact ih x h
    · rw [if_neg hc] at hx
      cases h : splitCharL sep t with
      | nil => exact absurd h (splitCharL_ne_nil sep t)
      | cons a as =>
        rw [h] at hx
        rcases List.mem_cons.mp hx with h2 | h2
        · subst h2
          intro hmem
          rcases List.mem_cons.mp hmem with h3 | h3
          · exact hc h3.symm
          · exact ih a (by rw [h]; simp) h3
        · exact ih x (by rw [h]; simp [h2])

theorem mem_of_mem_splitCharL (sep : Char) (l : List Char) :
    ∀ x ∈ splitCharL sep l, ∀ c ∈ x, c ∈ l := by
  induction l with
  | nil =>
    intro x hx c hc
    simp [splitCharL] at hx
    subst hx
    simp at hc
  | cons d t ih =>
    intro x hx c hc
    unfold splitCharL at hx
    by_cases hd : d = sep
    · rw [if_pos hd] at hx
      rcases List.mem_cons.mp hx with h | h
      · subst h; simp at hc
      · exact List.mem_cons_of_mem _ (ih x h c hc)
    · rw [if_neg hd] at hx
      cases h : splitCharL sep t with
      | nil => exact absurd h (splitCharL_ne_nil sep t)
      | cons a as =>
        rw [h] at hx
        rcases List.mem_cons.mp hx with h2 | h2
        · subst h2
          rcases List.mem_cons.mp hc with h3 | h3
          · simp [h3]
          · exact List.mem_cons_of_mem _ (ih a (by rw [h]; simp) c h3)
        · exact List.mem_cons_of_mem _ (ih x (by rw [h]; simp [h2]) c hc)

theorem splitCharL_clean {sep : Char} {a : List Char} (ha : sep ∉ a) :
    splitCharL sep a = [a] := by
  induction a with
  | nil => rfl
  | cons c t ih =>
    have hc : ¬ c = sep := fun h => ha (by simp [h])
    unfold splitCharL
    rw [if_neg hc, ih (fun h => ha (by simp [h]))]

theorem splitCharL_clean_append {sep : Char} {a : List Char} (r : List Char) (ha : sep ∉ a) :
    splitCharL sep (a ++ sep :: r) = a :: splitCharL sep r := by
  induction a with
  | nil => simp [splitCharL]
  | cons c t ih =>
    have hc : ¬ c = sep := fun h => ha (by simp [h])
    show splitCharL sep (c :: (t ++ sep :: r)) = (c :: t) :: splitCharL sep r
    rw [splitCharL, if_neg hc, ih (fun h => ha (by simp [h]))]

theorem splitCharL_interL {sep : Char} (hsep : isSep sep = true) {G : List (List Char)}
    (hG : G ≠ []) (hclean : ∀ x ∈ G, ∀ c ∈ x, isSep c = false) :
    splitCharL sep (interL sep G) = G := by
  induction G with
  | nil => exact absurd rfl hG
  | cons a t ih =>
    have hsa : sep ∉ a := by
      intro hmem
      have h2 := hclean a (by simp) sep hmem
      rw [hsep] at h2
      exact absurd h2 (by decide)
    cases t with
    | nil =>
      have h1 : interL sep [a] = a := by simp [interL]
      rw [h1, splitCharL_clean hsa]
    | cons a2 t2 =>
      rw [interL_cons_cons, splitCharL_clean_append _ hsa,
        ih (by simp) (fun x hx => hclean x (by simp [hx]))]

theorem mem_of_tail {α : Type} {x : α} {l : List α} (h : x ∈ l.tail) : x ∈ l := by
  cases l with
  | nil => simp at h
  | cons a t => exact List.mem_cons_of_mem _ h

theorem dropLast_append_getLastD {α : Type} (b : α) (u : List α) (d : α) :
    (b :: u).dropLast ++ [(b :: u).getLastD d] = b :: u := by
  induction u generalizing b d with
  | nil => rfl
  | cons c v ih =>
    rw [List.getLastD_cons]
    show b :: (c :: v).dropLast ++ [(c :: v).getLastD b] = b :: c :: v
    rw [List.cons_append, ih]

theorem getLastD_mem {α : Type} (b : α) (u : List α) (d : α) :
    (b :: u).getLastD d ∈ b :: u := by
  have h := dropLast_append_getLastD b u d
  have h2 : (b :: u).getLastD d ∈ (b :: u).dropLast ++ [(b :: u).getLastD d] := by simp
  rwa [h] at h2

theorem collapseSegs_go_mem {r : Bool} {x : List Char} :
    ∀ (t acc : List (List Char)),
      x ∈ t.foldl
          (fun acc seg =>
            if seg = ['.'] ∨ seg = ['.', '.'] then
              if r ∧ seg = ['.', '.'] then acc.dropLast else acc
            else acc ++ [seg]) acc →
      x ∈ acc ∨ x ∈ t := by
  intro t
  induction t with
  | nil =>
    intro acc h
    simp at h
    exact Or.inl h
  | cons s u ih =>
    intro acc h
    rw [List.foldl_cons] at h
    rcases ih _ h with h2 | h2
    · by_cases hs : s = ['.'] ∨ s = ['.', '.']
      · rw [if_pos hs] at h2
        by_cases hr : r = true ∧ s = ['.', '.']
        · rw [if_pos hr] at h2
          exact Or.inl (List.mem_of_mem_dropLast h2)
        · rw [if_neg hr] at h2
          exact Or.inl h2
      · rw [if_neg hs] at h2
        rcases List.mem_append.mp h2 with h3 | h3
        · exact Or.inl h3
        · simp at h3
          subst h3
          exact Or.inr (by simp)
    · exact Or.inr (List.mem_cons_of_mem _ h2)

theorem mem_collapseSegs {r : Bool} {segs : List (List Char)} {x : List Char}
    (h : x ∈ collapseSegs r segs) : x ∈ segs := by
  unfold collapseSegs at h
  rcases collapseSegs_go_mem segs [] h with h2 | h2
  · simp at h2
  · exact h2

theorem collapseSegs_go_no_dot {r : Bool} {x : List Char} :
    ∀ (t acc : List (List Char)),
      (∀ y ∈ acc, y ≠ ['.'] ∧ y ≠ ['.', '.']) →
      x ∈ t.foldl
          (fun acc seg =>
            if seg = ['.'] ∨ seg = ['.', '.'] then
              if r ∧ seg = ['.', '.'] then acc.dropLast else acc
            else acc ++ [seg]) acc →
      x ≠ ['.'] ∧ x ≠ ['.', '.'] := by
  intro t
  induction t with
  | nil =>
    intro acc hacc h
    simp at h
    exact hacc x h
  | cons s u ih =>
    intro acc hacc h
    rw [List.foldl_cons] at h
    apply ih _ ?inv h
    case inv =>
      intro y hy
      by_cases hs : s = ['.'] ∨ s = ['.', '.']
      · rw [if_pos hs] at hy
        by_cases hr : r = true ∧ s = ['.', '.']
        · rw [if_pos hr] at hy
          exact hacc y (List.mem_of_mem_dropLast hy)
        · rw [if_neg hr] at hy
          exact hacc y hy
      · rw [if_neg hs] at hy
        rcases List.mem_append.mp hy with h3 | h3
        · exact hacc y h3
        · simp at h3
          subst h3
          exact ⟨fun hcon => hs (Or.inl hcon), fun hcon => hs (Or.inr hcon)⟩

theorem collapseSegs_no_dot {r : Bool} {segs : List (List Char)} {x : List Char}
    (h : x ∈ collapseSegs r segs) : x ≠ ['.'] ∧ x ≠ ['.', '.'] := by
  unfold collapseSegs at h
  exact collapseSegs_go_no_dot segs [] (by simp) h

theorem collapseSegs_id {r : Bool} {G : List (List Char)}
    (h : ∀ x ∈ G, ¬(x = ['.'] ∨ x = ['.', '.'])) : collapseSegs r G = G := by
  unfold collapseSegs
  have general : ∀ (t acc : List (List Char)),
      (∀ x ∈ t, ¬(x = ['.'] ∨ x = ['.', '.'])) →
      t.foldl
          (fun acc seg =>
            if seg = ['.'] ∨ seg = ['.', '.'] then
              if r ∧ seg = ['.', '.'] then acc.dropLast else acc
            else acc ++ [seg]) acc
        = acc ++ t := by
    intro t
    induction t with
    | nil =>
      intro acc _
      simp
    | cons s u ih =>
      intro acc hs
      rw [List.foldl_cons, if_neg (hs s (by simp)),
        ih _ (fun x hx => hs x (by simp [hx]))]
      simp
  simpa using general G [] h

theorem joinFold_go {sep : Char} :
    ∀ (t : List (List Char)) (acc : List Char), lastIsSep acc = false →
      (∀ x ∈ t, x ≠ [] ∧ ∀ c ∈ x, isSep c = false) →
      t.foldl (fun acc p => if lastIsSep acc then acc ++ p else acc ++ sep :: p) acc
        = acc ++ (t.map (fun a => sep :: a)).flatten := by
  intro t
  induction t with
  | nil =>
    intro acc _ _
    simp
  | cons p u ih =>
    intro acc hacc ht
    rw [List.foldl_cons, if_neg (by simp [hacc])]
    obtain ⟨hp, hpc⟩ := ht p (by simp)
    have hlast : lastIsSep (acc ++ sep :: p) = false := by
      rw [lastIsSep_append (by simp),
        show (sep :: p) = [sep] ++ p from rfl, lastIsSep_append hp]
      exact lastIsSep_of_clean hpc
    rw [ih _ hlast (fun x hx => ht x (by simp [hx]))]
    simp

theorem pyJoinL_clean {sep : Char} (L : List (List Char))
    (hclean : ∀ x ∈ L, ∀ c ∈ x, isSep c = false) :
    pyJoinL sep L = interL sep (L.filter (fun x => !x.isEmpty)) := by
  have hstr : ∀ x ∈ L.filter (fun x => !x.isEmpty), x ≠ [] ∧ ∀ c ∈ x, isSep c = false := by
    intro x hx
    refine ⟨?_, hclean x (List.mem_of_mem_filter hx)⟩
    have h2 := List.of_mem_filter hx
    simpa using h2
  unfold pyJoinL
  cases hF : L.filter (fun x => !x.isEmpty) with
  | nil => rfl
  | cons h t =>
    show joinFoldL sep (h :: t.map (fun p => if headIsSep p then stripLeftL p else p))
      = interL sep (h :: t)
    have hmap : t.map (fun p => if headIsSep p then stripLeftL p else p) = t := by
      have h2 : ∀ p ∈ t, (if headIsSep p then stripLeftL p else p) = p := by
        intro p hp
        rw [if_neg]
        rw [headIsSep_of_clean (hstr p (by rw [hF]; simp [hp])).2]
        simp
      calc t.map (fun p => if headIsSep p then stripLeftL p else p)
          = t.map id := List.map_congr_left h2
        _ = t := List.map_id t
    rw [hmap]
    show t.foldl (fun acc p => if lastIsSep acc then acc ++ p else acc ++ sep :: p) h
      = interL sep (h :: t)
    rw [joinFold_go t h (lastIsSep_of_clean (hstr h (by rw [hF]; simp)).2)
      (fun x hx => hstr x (by rw [hF]; simp [hx]))]
    rfl

theorem assembly_filter (F : List (List Char)) :
    (F.headD [] :: (F.tail.dropLast ++ [F.tail.getLastD []])).filter (fun x => !x.isEmpty)
      = F.filter (fun x => !x.isEmpty) := by
  cases F with
  | nil => rfl
  | cons a t =>
    cases t with
    | nil => cases ha : a.isEmpty <;> simp [List.filter_cons, ha]
    | cons b u =>
      show ((a :: ((b :: u).dropLast ++ [(b :: u).getLastD []])).filter
          (fun x => !x.isEmpty)) = _
      rw [dropLast_append_getLastD]

theorem seg_clean {sep : Char} {l : List Char} :
    ∀ x ∈ splitAllL sep l, ∀ c ∈ x, isSep c = false := by
  intro x hx c hc
  unfold splitAllL at hx
  by_contra hcon
  have hct : isSep c = true := by simpa using hcon
  have hmem : c ∈ uniformL sep (stripBothL l) := mem_of_mem_splitCharL _ _ x hx c hc
  have hcsep : c = sep := mem_uniformGo (by simpa [uniformL] using hmem) hct
  exact not_mem_splitCharL sep _ x hx (hcsep ▸ hc)

theorem normaliseL_eq_branch {sep : Char} (l : List Char)
    (hbranch : l.length > 1 ∨ ¬(l = ['/'] ∨ l = ['\\'])) :
    normaliseL sep true true false l
      = pyJoinL sep
          ((if headIsSep ((splitAllL sep l).headD [])
              then sep :: (collapseSegs true (splitAllL sep l)).headD []
              else (collapseSegs true (splitAllL sep l)).headD [])
            :: ((collapseSegs true (splitAllL sep l)).tail.dropLast
              ++ [if lastIsSep ((splitAllL sep l).tail.getLastD [])
                  then (collapseSegs true (splitAllL sep l)).tail.getLastD [] ++ [sep]
                  else (collapseSegs true (splitAllL sep l)).tail.getLastD []])) := by
  unfold normaliseL
  rw [if_pos (show (true = true) ∧ (l.length > 1 ∨ ¬(l = ['/'] ∨ l = ['\\'])) from
    ⟨rfl, hbranch⟩)]
  rfl

theorem normaliseL_collapse {sep : Char} (l : List Char)
    (hbranch : l.length > 1 ∨ ¬(l = ['/'] ∨ l = ['\\'])) :
    normaliseL sep true true false l
      = pyJoinL sep
          ((collapseSegs true (splitAllL sep l)).headD []
            :: ((collapseSegs true (splitAllL sep l)).tail.dropLast
              ++ [(collapseSegs true (splitAllL sep l)).tail.getLastD []])) := by
  have hhead : headIsSep ((splitAllL sep l).headD []) = false := by
    cases hs : splitAllL sep l with
    | nil => rfl
    | cons a t =>
      show headIsSep a = false
      exact headIsSep_of_clean (fun c hc => seg_clean a (by rw [hs]; simp) c hc)
  have hlast : lastIsSep ((splitAllL sep l).tail.getLastD []) = false := by
    apply lastIsSep_of_clean
    intro c hc
    cases hs : splitAllL sep l with
    | nil =>
      rw [hs] at hc
      simp at hc
    | cons a t =>
      rw [hs] at hc
      cases hT : t with
      | nil =>
        rw [hT] at hc
        simp at hc
      | cons b u =>
        rw [hT] at hc
        have hmem : (b :: u).getLastD [] ∈ splitAllL sep l := by
          rw [hs, hT]
          exact List.mem_cons_of_mem _ (getLastD_mem b u [])
        exact seg_clean _ hmem c (by simpa using hc)
  rw [normaliseL_eq_branch l hbranch, if_neg (by rw [hhead]; simp),
    if_neg (by rw [hlast]; simp)]

theorem normaliseL_interL {sep : Char} (l : List Char)
    (hbranch : l.length > 1 ∨ ¬(l = ['/'] ∨ l = ['\\'])) :
    normaliseL sep true true false l
      = interL sep ((collapseSegs true (splitAllL sep l)).filter (fun x => !x.isEmpty)) := by
  have hF : ∀ x ∈ collapseSegs true (splitAllL sep l), ∀ c ∈ x, isSep c = false :=
    fun x hx => seg_clean x (mem_collapseSegs hx)
  have hclean : ∀ x ∈ ((collapseSegs true (splitAllL sep l)).headD []
      :: ((collapseSegs true (splitAllL sep l)).tail.dropLast
        ++ [(collapseSegs true (splitAllL sep l)).tail.getLastD []])),
      ∀ c ∈ x, isSep c = false := by
    intro x hx
    rcases List.mem_cons.mp hx with h | h
    · subst h
      cases hs : collapseSegs true (splitAllL sep l) with
      | nil =>
        intro c hc
        simp at hc
      | cons a t =>
        show ∀ c ∈ a, isSep c = false
        exact hF a (by rw [hs]; simp)
    · rcases List.mem_append.mp h with h2 | h2
      · exact hF x (mem_of_tail (List.mem_of_mem_dropLast h2))
      · have h3 := List.mem_singleton.mp h2
        subst h3
        cases ht : (collapseSegs true (splitAllL sep l)).tail with
        | nil =>
          intro c hc
          rw [show (([] : List (List Char)).getLastD []) = [] from rfl] at hc
          exact absurd hc (List.not_mem_nil c)
        | cons b u =>
          intro c hc
          exact hF _ (mem_of_tail (ht ▸ getLastD_mem b u [])) c hc
  rw [normaliseL_collapse l hbranch, pyJoinL_clean _ hclean, assembly_filter]

theorem lastIsSep_interL {sep : Char} {G : List (List Char)}
    (hne : ∀ x ∈ G, x ≠ []) (hclean : ∀ x ∈ G, ∀ c ∈ x, isSep c = false) :
    lastIsSep (interL sep G) = false := by
  induction G with
  | nil => rfl
  | cons a t ih =>
    cases t with
    | nil =>
      have h1 : interL sep [a] = a := by simp [interL]
      rw [h1]
      exact lastIsSep_of_clean (hclean a (by simp))
    | cons b u =>
      rw [interL_cons_cons]
      have hbne : interL sep (b :: u) ≠ [] := by
        rw [show interL sep (b :: u) = b ++ (u.map (fun x => sep :: x)).flatten from rfl]
        simp [hne b (by simp)]
      rw [lastIsSep_append (by simp),
        show (sep :: interL sep (b :: u)) = [sep] ++ interL sep (b :: u) from rfl,
        lastIsSep_append hbne]
      exact ih (fun x hx => hne x (by simp [hx])) (fun x hx => hclean x (by simp [hx]))

theorem normaliseL_fixed {sep : Char} (hsep : isSep sep = true) (G : List (List Char))
    (hne : ∀ x ∈ G, x ≠ []) (hclean : ∀ x ∈ G, ∀ c ∈ x, isSep c = false)
    (hnodot : ∀ x ∈ G, ¬(x = ['.'] ∨ x = ['.', '.'])) :
    normaliseL sep true true false (interL sep G) = interL sep G := by
  cases G with
  | nil =>
    show normaliseL sep true true false [] = []
    rw [normaliseL_interL [] (Or.inr (by simp))]
    rfl
  | cons g t =>
    have hgne : g ≠ [] := hne g (by simp)
    have hh : headIsSep (interL sep (g :: t)) = false := by
      rw [show interL sep (g :: t) = g ++ (t.map (fun a => sep :: a)).flatten from rfl,
        headIsSep_append hgne]
      exact headIsSep_of_clean (hclean g (by simp))
    have hbranch : (interL sep (g :: t)).length > 1 ∨
        ¬(interL sep (g :: t) = ['/'] ∨ interL sep (g :: t) = ['\\']) := by
      right
      rintro (h | h) <;> (rw [h] at hh; simp [headIsSep, isSep] at hh)
    rw [normaliseL_interL _ hbranch]
    have hstrip : stripBothL (interL sep (g :: t)) = interL sep (g :: t) := by
      unfold stripBothL
      rw [stripLeftL_eq hh, stripRightL_eq (lastIsSep_interL hne hclean)]
    have h1 : splitAllL sep (interL sep (g :: t)) = g :: t := by
      unfold splitAllL
      rw [hstrip,
        show uniformL sep (interL sep (g :: t)) = interL sep (g :: t) from
          uniformGo_interL hsep hne hclean false]
      exact splitCharL_interL hsep (by simp) hclean
    rw [h1, collapseSegs_id hnodot,
      List.filter_eq_self.mpr (fun a ha => by simpa using hne a ha)]

theorem normaliseL_idem {sep : Char} (hsep : isSep sep = true) (l : List Char) :
    normaliseL sep true true false (normaliseL sep true true false l)
      = normaliseL sep true true false l := by
  by_cases hb : l = ['/'] ∨ l = ['\\']
  · have hNl : normaliseL sep true true false l = [sep] := by
      have hc1 : ¬((true = true) ∧ (l.length > 1 ∨ ¬(l = ['/'] ∨ l = ['\\']))) := by
        rintro ⟨-, h2 | h2⟩
        · rcases hb with h | h <;> (subst h; simp at h2)
        · exact h2 hb
      unfold normaliseL
      rw [if_neg hc1]
      show uniformL sep l = [sep]
      rcases hb with h | h <;> (subst h; simp [uniformL, uniformGo, isSep])
    have hNsep : normaliseL sep true true false [sep] = [sep] := by
      have hc2 : ¬((true = true) ∧
          (([sep] : List Char).length > 1 ∨ ¬([sep] = ['/'] ∨ [sep] = ['\\']))) := by
        rintro ⟨-, h2 | h2⟩
        · simp at h2
        · rcases isSep_cases hsep with h | h <;> (subst h; exact h2 (by simp))
      unfold normaliseL
      rw [if_neg hc2]
      show uniformL sep [sep] = [sep]
      simp [uniformL, uniformGo, hsep]
    rw [hNl, hNsep]
  · have hbranch : l.length > 1 ∨ ¬(l = ['/'] ∨ l = ['\\']) := Or.inr hb
    rw [normaliseL_interL l hbranch]
    apply normaliseL_fixed hsep
    · intro x hx
      simpa using List.of_mem_filter hx
    · intro x hx c hc
      exact seg_clean x (mem_collapseSegs (List.mem_of_mem_filter hx)) c hc
    · intro x hx
      have h2 := collapseSegs_no_dot (List.mem_of_mem_filter hx)
      rintro (h | h)
      · exact h2.1 h
      · exact h2.2 h

/-- C1: the frozen `full_path` is indeed `normalise(join(root, path))` — that
equation is the constructor's own code — but it does *not* begin with `root`:
`normalise`'s collapse branch splits via `split(maximum=None)`, which strips
all boundary separators, so the leading separator of the joined path is lost.
constructing a File from path "/text.md" and root "/tmp" freezes a full path of "tmp/text.md", which
does not start with `/tmp` (the repository's own `tests/files.py::test_init`
expects rooted full paths), refuting the root-jailing invariant. -/
theorem claim_C1_code_bug :
    (File.make "/tmp" "/text.md").full_path
        = Path.normalise true true true false
            (Path.join true "/tmp" [(File.make "/tmp" "/text.md").path]) ∧
    (File.make "/tmp" "/text.md").full_path = "tmp/text.md" ∧
    strStartsWith (File.make "/tmp" "/text.md").full_path "/tmp" = false := by
  refine ⟨rfl, by decide, by decide⟩

/-- C2: the "was rooted"/"was trailing-separator" facts are *not* preserved:
normalising `/abc/../` yields the empty string, not `/`, and
the join of "/abc" with "../xyz" followed by collapse+resolve normalisation yields
`xyz`, not `/xyz`.  The re-rooting conditionals in `normalise` test segments
that `split(maximum=None)` has already stripped of separators, so they never
fire. -/
theorem claim_C2_code_bug :
    Path.normalise true true true false "/abc/../" = "" ∧
    Path.normalise true true true false (Path.join true "/abc" ["../xyz"]) = "xyz" := by
  decide

/-- C3: for an existing directory, `empty` does not probe the recursive file
listing — the source calls `_count_lines(limit=1)`, whose body is guarded by
`self._file`, so it returns `None` for every directory and `empty` is `True`
even for the directory `r/d` that visibly contains a file.  The file and
missing-entry branches do behave as claimed (size 0 test, `None`). -/
theorem claim_C3_code_bug :
    emptyProp fsC3 (File.make "/r" "/d") = some true ∧
    FS.filesUnder fsC3 (File.make "/r" "/d").full_path = ["r/d/a"] ∧
    FS.isDir fsC3 (File.make "/r" "/d").full_path = true ∧
    emptyProp fsC3 (File.make "/r" "/e") = some true ∧
    emptyProp fsC3 (File.make "/r" "/f") = some false ∧
    emptyProp fsC3 (File.make "/r" "/zz") = none := by
  decide

/-- C4: `d > f` never returns `True` — `compare` with method `sizes` routes
through `_compare_sizes(other)`, which absorbs `other` into its
`size_recurse` parameter and then calls `_compare_lengths` without its
required positional argument, raising `TypeError`.  The underlying
`_compare_lengths` logic, had it been reached, does classify an existing
directory as greater than an existing file with a different full path,
unconditionally on sizes — exactly what the class docstring promises. -/
theorem claim_C4_code_bug (fs : FS) (d f : FileModel)
    (hd : fs.isDir d.full_path = true) (hf : fs.isFile f.full_path = true)
    (hne : d.full_path ≠ f.full_path) :
    (∃ e, compareSizes fs d f = Except.error e) ∧
    compareLengths fs d f = 1 ∧ compareLengths fs f d = -1 := by
  refine ⟨⟨_, rfl⟩, ?_, ?_⟩
  · unfold compareLengths
    simp [hne, FS.isDir_existsPath hd, FS.isFile_existsPath hf, hd,
      FS.isFile_not_isDir hf, compareLikeness]
  · unfold compareLengths
    simp [Ne.symm hne, FS.isDir_existsPath hd, FS.isFile_existsPath hf, hd,
      FS.isFile_not_isDir hf, compareLikeness]

/-- Witness for C4 at a concrete filesystem: the directory `r/d` against the
file `r/f`. -/
theorem claim_C4_code_bug_witness :
    (FS.isDir fsC3 (File.make "/r" "/d").full_path = true ∧
      FS.isFile fsC3 (File.make "/r" "/f").full_path = true ∧
      (File.make "/r" "/d").full_path ≠ (File.make "/r" "/f").full_path) ∧
    ((∃ e, compareSizes fsC3 (File.make "/r" "/d") (File.make "/r" "/f") = Except.error e) ∧
      compareLengths fsC3 (File.make "/r" "/d") (File.make "/r" "/f") = 1 ∧
      compareLengths fsC3 (File.make "/r" "/f") (File.make "/r" "/d") = -1) :=
  ⟨⟨by decide, by decide, by decide⟩,
    claim_C4_code_bug fsC3 _ _ (by decide) (by decide) (by decide)⟩

/-- C5: a directory checksum is not any digest of the contained bytes — the
enumeration `_checksum_children` iterates yields one dictionary per walked
directory level, and evaluating `._checksum` on the first such record raises
`AttributeError`, so `checksum` fails on every existing directory instead of
producing the claimed concatenation-by-update digest. -/
theorem claim_C5_code_bug (σ : Type) (alg : DigestAlg σ) :
    fileChecksum fsC5 alg (File.make "/r" "/d")
        = Except.error "AttributeError: dict object has no attribute checksum" ∧
    fileChecksum fsC5 alg (File.make "/r" "/d")
        ≠ Except.ok (specDirectoryChecksum fsC5 alg (File.make "/r" "/d").full_path) := by
  have h1 :
      fileChecksum fsC5 alg (File.make "/r" "/d")
        = Except.error "AttributeError: dict object has no attribute checksum" := rfl
  refine ⟨h1, ?_⟩
  rw [h1]
  intro h
  exact Except.noConfusion h

/-- C6: `countLines` does not count the whole file — the `return` sits inside
the scanning loop, so a two-line file reports 1 line with no limit; and with
`limit=1` the sentinel assignment breaks out and the method falls through to
an implicit `None` rather than stopping at the limit with a count. -/
theorem claim_C6_code_bug :
    countLines fsC6 (File.make "/r" "/t") none false false = some 1 ∧
    (pyLines (FS.fileContent fsC6 (File.make "/r" "/t").full_path)).length = 2 ∧
    countLines fsC6 (File.make "/r" "/t") (some 2) false false = some 1 ∧
    countLines fsC6 (File.make "/r" "/t") (some 1) false false = none := by
  decide

/-- C7 counterexample: normalising `123/../abc.md` with collapse enabled and
`resolve=False` does not leave the path unchanged — the `..` segment is
dropped (the repository's own `tests/paths.py` asserts the result
`123/abc.md`). -/
theorem claim_C7_counterexample :
    Path.normalise true true false false "123/../abc.md" ≠ "123/../abc.md" := by
  decide

/-- C7 (amended): with collapse enabled, `resolve=False` drops `.` and `..`
segments without popping, so `123/../abc.md` becomes `123/abc.md`; with
`resolve=True` it becomes `abc.md`; and in the filtering loop each `..`
pops the most recently kept segment, a `..` with nothing to pop being
dropped without error (`dropLast` of the empty accumulation). -/
theorem claim_C7_amended :
    Path.normalise true true false false "123/../abc.md" = "123/abc.md" ∧
    Path.normalise true true true false "123/../abc.md" = "abc.md" ∧
    (∀ segs : List (List Char),
      collapseSegs true (segs ++ [['.', '.']]) = (collapseSegs true segs).dropLast) ∧
    (∀ segs : List (List Char),
      collapseSegs true (segs ++ [['.']]) = collapseSegs true segs) := by
  refine ⟨by decide, by decide, ?_, ?_⟩ <;>
    intro segs <;> simp [collapseSegs, List.foldl_append]

/-- C8: `normalise` with default arguments (`collapse=True`, `resolve=True`,
`absolute=False`) is idempotent for every path string and either separator
style. -/
theorem claim_C8 (posix : Bool) (p : String) :
    Path.normalise posix true true false (Path.normalise posix true true false p)
      = Path.normalise posix true true false p := by
  have hsep : isSep (sepChar posix) = true := by cases posix <;> decide
  show (⟨normaliseL (sepChar posix) true true false
      (normaliseL (sepChar posix) true true false p.data)⟩ : String)
    = ⟨normaliseL (sepChar posix) true true false p.data⟩
  rw [normaliseL_idem hsep]

/-- C9: conflict resolution proposes `<base>_<n><ext>` for the smallest
`n ≥ 1` whose candidate path does not exist at call time, and returns that
candidate's name; the model consumes the filesystem read-only (the source
only probes `os.path.exists`). -/
theorem claim_C9 (fs : FS) (f : FileModel) (fuel n : Nat)
    (hex : fs.existsPath f.full_path = true)
    (hloop : resolveLoop fs f.full_path fuel 1 = some n) :
    resolveName fs f fuel = some ((Path.splitOne true (resolution f.full_path n)).2) ∧
    fs.existsPath (resolution f.full_path n) = false ∧
    1 ≤ n ∧
    ∀ m, 1 ≤ m → m < n → fs.existsPath (resolution f.full_path m) = true := by
  have spec :
      ∀ fuel c n, resolveLoop fs f.full_path fuel c = some n →
        fs.existsPath (resolution f.full_path n) = false ∧ c ≤ n ∧
          ∀ m, c ≤ m → m < n → fs.existsPath (resolution f.full_path m) = true := by
    intro fuel
    induction fuel with
    | zero => intro c n h; simp [resolveLoop] at h
    | succ k ih =>
      intro c n h
      unfold resolveLoop at h
      by_cases hc : fs.existsPath (resolution f.full_path c) = true
      · rw [if_pos hc] at h
        obtain ⟨hfree, hle, hall⟩ := ih (c + 1) n h
        refine ⟨hfree, Nat.le_of_succ_le hle, ?_⟩
        intro m hcm hmn
        rcases Nat.lt_or_ge m (c + 1) with hlt | hge
        · have : m = c := Nat.le_antisymm (Nat.lt_succ_iff.mp hlt) hcm
          simpa [this] using hc
        · exact hall m hge hmn
      · rw [if_neg hc] at h
        obtain rfl : c = n := by simpa using h
        refine ⟨by simpa using hc, Nat.le_refl _, ?_⟩
        intro m hcm hmn
        exact absurd (Nat.lt_of_le_of_lt hcm hmn) (Nat.lt_irrefl _)
  obtain ⟨hfree, hone, hmin⟩ := spec fuel 1 n hloop
  refine ⟨?_, hfree, hone, hmin⟩
  unfold resolveName
  rw [if_pos hex, hloop]
  rfl

/-- Witness for C9: with `avatar.png` and `avatar_1.png` present, the resolved
candidate is `avatar_2.png`, which does not exist. -/
theorem claim_C9_witness :
    (FS.existsPath fsC9 (File.make "/r" "/avatar.png").full_path = true ∧
      resolveLoop fsC9 (File.make "/r" "/avatar.png").full_path 3 1 = some 2) ∧
    (resolveName fsC9 (File.make "/r" "/avatar.png") 3
        = some
          ((Path.splitOne true
              (resolution (File.make "/r" "/avatar.png").full_path 2)).2) ∧
      FS.existsPath fsC9 (resolution (File.make "/r" "/avatar.png").full_path 2) = false ∧
      1 ≤ 2 ∧
      ∀ m, 1 ≤ m → m < 2 →
        FS.existsPath fsC9 (resolution (File.make "/r" "/avatar.png").full_path m) = true) :=
  ⟨⟨by decide, by decide⟩,
    claim_C9 fsC9 (File.make "/r" "/avatar.png") 3 2 (by decide) (by decide)⟩

/-- C10: whenever at least one of the two entries does not exist,
`_compare_equality` keeps its initial `result = True` regardless of the
`inverse` flag, so `f == g` and `f != g` are simultaneously `True`. -/
theorem claim_C10 (fs : FS) (f g : FileModel)
    (h : fs.existsPath f.full_path = false ∨ fs.existsPath g.full_path = false) :
    compareEquality fs f g true true false = true ∧
    compareEquality fs f g true true true = true := by
  unfold compareEquality
  rcases h with h | h <;> simp [h]

/-- Witness for C10: two never-created entries compare both equal and unequal
on the empty filesystem. -/
theorem claim_C10_witness :
    (FS.existsPath ⟨[]⟩ (File.make "/r" "/x").full_path = false ∨
      FS.existsPath ⟨[]⟩ (File.make "/r" "/y").full_path = false) ∧
    (compareEquality ⟨[]⟩ (File.make "/r" "/x") (File.make "/r" "/y") true true false = true ∧
      compareEquality ⟨[]⟩ (File.make "/r" "/x") (File.make "/r" "/y") true true true = true) :=
  ⟨Or.inl (by decide),
    claim_C10 ⟨[]⟩ (File.make "/r" "/x") (File.make "/r" "/y") (Or.inl (by decide))⟩

end Bide
